import Mathlib

/-!
Shallow embedding of the cleaning pipeline in `src/data_cleaning.py`
(functions `clean_column_names`, `_to_numeric_clean`, `handle_missing_values`,
`remove_invalid_rows`).

A pandas `DataFrame` is modelled as an ordered list of column headers, a
parallel list of column dtypes (`object`, `float64`, `int64`), a row index
(the labels pandas keeps across boolean filtering and resets with
`reset_index(drop=True)`), and the rows themselves.  A cell is a string, a
rational number, or the missing marker (pandas `NaN`/`None`).  Python floats
are represented by rationals: every numeric literal the pipeline parses and
every arithmetic step it performs (median, truncation) is exact on the
inputs considered here; IEEE specials (`inf`, `nan`) have no rational
counterpart, and a parse producing a non-finite float is represented as
missing (a float `nan` is treated as missing by every later stage anyway).
-/

namespace DataCleaning

/-- Whitespace recognized by Python `str.strip()` and by the regex class
`\s` in the ASCII range: space, tab, newline, carriage return, vertical
tab, form feed. -/
def isSpace (c : Char) : Bool :=
  c == ' ' || c == '\t' || c == '\n' || c == '\r' || c == '\x0b' || c == '\x0c'

/-- Python `str.strip()` on a character list: drop leading and trailing
whitespace. -/
def pyStripL (l : List Char) : List Char :=
  ((l.dropWhile isSpace).reverse.dropWhile isSpace).reverse

/-- Python `str.strip()`. -/
def pyStrip (s : String) : String :=
  String.mk (pyStripL s.data)

/-- Python `str.lower()` restricted to ASCII letters (column names in this
pipeline are ASCII). -/
def lowerChar (c : Char) : Char :=
  if 65 ≤ c.toNat ∧ c.toNat ≤ 90 then Char.ofNat (c.toNat + 32) else c

/-- One pass of `re.sub(r"\s+", "_", ·)`: each maximal run of whitespace is
replaced by a single underscore.  The flag records whether the previous
character was part of a whitespace run. -/
def collapseWsAux : Bool → List Char → List Char
  | _, [] => []
  | inRun, c :: rest =>
    if isSpace c then
      (if inRun then [] else ['_']) ++ collapseWsAux true rest
    else
      c :: collapseWsAux false rest

/-- Column-name canonicalization from `clean_column_names`:
`re.sub(r"\s+", "_", c.strip().lower())`. -/
def canonName (s : String) : String :=
  String.mk (collapseWsAux false ((pyStripL s.data).map lowerChar))

/-- Column dtypes that occur in the pipeline: `object` (raw text),
`float64` (after `pd.to_numeric`), `int64` (after `astype(int)`). -/
inductive DType
  | obj
  | float
  | int
deriving DecidableEq

/-- A cell of the table: a string, a (finite) number, or missing. -/
inductive Val
  | str (s : String)
  | num (q : ℚ)
  | na
deriving DecidableEq

/-- A DataFrame: headers, per-column dtypes, the row index, and the rows.
Rows are parallel to `idx`; each row is parallel to `headers`. -/
structure Table where
  headers : List String
  dtypes : List DType
  idx : List Nat
  rows : List (List Val)
deriving DecidableEq

/-- Alignment invariants a real DataFrame maintains: one dtype per column,
one index label per row, one cell per column in every row. -/
def Table.WF (t : Table) : Prop :=
  t.dtypes.length = t.headers.length ∧ t.idx.length = t.rows.length ∧
    ∀ r ∈ t.rows, r.length = t.headers.length

instance (t : Table) : Decidable t.WF := by
  unfold Table.WF
  infer_instance

/-- Position of the first column named `n` (the column `df[n]` denotes);
equals `headers.length` when no column has that name. -/
def Table.posOf (t : Table) (n : String) : Nat :=
  t.headers.findIdx (fun h => h == n)

/-- Values of column `n`, if present: `df[n]`. -/
def getColVals (t : Table) (n : String) : Option (List Val) :=
  if n ∈ t.headers then
    some (t.rows.map (fun r => r.getD (t.posOf n) Val.na))
  else
    none

/-- Column assignment `df[n] = vs`: overwrite the column in place when the
name exists, otherwise append a new column on the right (pandas
`__setitem__`). -/
def setColVals (t : Table) (n : String) (dt : DType) (vs : List Val) : Table :=
  if n ∈ t.headers then
    { t with
        dtypes := t.dtypes.set (t.posOf n) dt,
        rows := List.zipWith (fun r v => r.set (t.posOf n) v) t.rows vs }
  else
    { t with
        headers := t.headers ++ [n],
        dtypes := t.dtypes ++ [dt],
        rows := List.zipWith (fun r v => r ++ [v]) t.rows vs }

/-- Dtype of column `n` (`df[n].dtype`). -/
def Table.dtypeOf (t : Table) (n : String) : DType :=
  t.dtypes.getD (t.posOf n) DType.obj

/-- Python `str(cell)` as applied by `astype(str)`: a missing cell (a float
`nan` in an object column read with `dtype=str`) stringifies to the literal
text "nan".  Numeric cells never re-enter textual coercion in this pipeline
(`load_data` reads every cell as text); their textual form is represented
by the rational's canonical rendering. -/
def astypeStr : Val → String
  | Val.str s => s
  | Val.num q => toString q
  | Val.na => "nan"

/-- Stage 1, `clean_column_names`: canonicalize the column names, then for
every `object`-dtype column stringify and strip each cell
(`df[col].astype(str).str.strip()`). -/
def clean_column_names (t : Table) : Table :=
  { headers := t.headers.map canonName,
    dtypes := t.dtypes,
    idx := t.idx,
    rows := t.rows.map (fun r =>
      (t.dtypes.zip r).map (fun p =>
        if p.1 = DType.obj then Val.str (pyStrip (astypeStr p.2)) else p.2)) }

/-- Deletion of currency noise, `s.str.replace(r"[^0-9.\-]", "", regex=True)`:
keep only digits, `.` and `-`. -/
def stripCurrency (s : String) : String :=
  String.mk (s.data.filter (fun c => c.isDigit || c == '.' || c == '-'))

/-- The exact missing-value sentinels replaced by
`s.replace({"": None, "nan": None, "None": None, "N/A": None, "NA": None})`. -/
def sentinels : List String :=
  ["", "nan", "None", "N/A", "NA"]

/-- Digit run to a natural number. -/
def natOfDigits (l : List Char) : Nat :=
  l.foldl (fun a c => a * 10 + (c.toNat - 48)) 0

/-- Optional leading sign of a float literal. -/
def parseSign : List Char → Int × List Char
  | '+' :: r => (1, r)
  | '-' :: r => (-1, r)
  | l => (1, l)

/-- Exponent tail of a float literal (after the `e`/`E`): optional sign and
a nonempty digit run, consuming the entire rest of the string. -/
def parseExpPart (mant : ℚ) (l : List Char) : Option ℚ :=
  let p := parseSign l
  let d := p.2.span Char.isDigit
  if d.1.isEmpty || !d.2.isEmpty then
    none
  else if p.1 < 0 then
    some (mant / ((10 : ℚ) ^ natOfDigits d.1))
  else
    some (mant * ((10 : ℚ) ^ natOfDigits d.1))

/-- Float-literal parsing as performed by `pd.to_numeric(·, errors="coerce")`
on a single string: optional sign, then either a digit run with an optional
fraction, or a fraction alone, then an optional exponent; anything else
coerces to missing.  Non-finite results ("inf", "nan" spellings) are
represented as missing, see the header comment. -/
def parseFloat (s : String) : Option ℚ :=
  let p := parseSign s.data
  let ipr := p.2.span Char.isDigit
  match ipr.2 with
  | [] =>
    if ipr.1.isEmpty then none
    else some ((p.1 : ℚ) * (natOfDigits ipr.1 : ℚ))
  | '.' :: r =>
    let fpr := r.span Char.isDigit
    if ipr.1.isEmpty && fpr.1.isEmpty then none
    else
      let mant : ℚ :=
        (p.1 : ℚ) * ((natOfDigits ipr.1 : ℚ) +
          (natOfDigits fpr.1 : ℚ) / ((10 : ℚ) ^ fpr.1.length))
      match fpr.2 with
      | [] => some mant
      | c :: r2 =>
        if c = 'e' ∨ c = 'E' then parseExpPart mant r2 else none
  | c :: r2 =>
    if (c = 'e' ∨ c = 'E') ∧ !ipr.1.isEmpty then
      parseExpPart ((p.1 : ℚ) * (natOfDigits ipr.1 : ℚ)) r2
    else
      none

/-- Per-cell text preprocessing of `_to_numeric_clean`: stringify, strip,
and (when `remove_currency` is set) delete currency noise. -/
def numPrep (remove_currency : Bool) (v : Val) : String :=
  let s := pyStrip (astypeStr v)
  if remove_currency then stripCurrency s else s

/-- Per-cell result of `_to_numeric_clean`: sentinel strings become missing,
everything else is parsed as a float with failures coerced to missing. -/
def coerceCell (remove_currency : Bool) (v : Val) : Option ℚ :=
  let s := numPrep remove_currency v
  if s ∈ sentinels then none else parseFloat s

/-- `_to_numeric_clean(series, remove_currency)`: elementwise coercion of a
column to optional floats. -/
def toNumericClean (vs : List Val) (remove_currency : Bool) : List (Option ℚ) :=
  vs.map (coerceCell remove_currency)

/-- Result of `pd.to_numeric` as a cell: a parsed number or `NaN`. -/
def optToVal : Option ℚ → Val
  | some q => Val.num q
  | none => Val.na

/-- `notna` on one cell: only the missing marker is na (strings are notna). -/
def notnaB : Val → Bool
  | Val.na => false
  | _ => true

/-- Cells that hold a string (a comparison such as `series > 0` raises
`TypeError` in pandas when it meets one). -/
def isStrB : Val → Bool
  | Val.str _ => true
  | _ => false

/-- Elementwise `series > 0` on cells that survive a `notna` filter: true
exactly for positive numbers (`NaN > 0` is false in pandas). -/
def gt0b : Val → Bool
  | Val.num q => decide (0 < q)
  | _ => false

/-- Row-keeping test of the product filter,
`~df["product"].isna() & (df["product"].str.strip() != "")`: the cell is
not missing and, for a string cell, is nonempty after stripping (`.str` on
a non-string cell of an object column yields `NaN`, and `NaN != ""` holds). -/
def productKeep : Val → Bool
  | Val.na => false
  | Val.str s => !(pyStrip s == "")
  | Val.num _ => true

/-- Numbers among a column's cells (the values `Series.median` averages;
missing cells are skipped). -/
def numsOf (vs : List Val) : List ℚ :=
  vs.filterMap (fun v => match v with
    | Val.num q => some q
    | _ => none)

/-- Insertion into a weakly ascending list. -/
def insertSorted (x : ℚ) : List ℚ → List ℚ
  | [] => [x]
  | y :: ys => if x ≤ y then x :: y :: ys else y :: insertSorted x ys

/-- Ascending insertion sort. -/
def sortQ (l : List ℚ) : List ℚ :=
  l.foldr insertSorted []

/-- `Series.median` over the non-missing values: the middle of the sorted
values, or the arithmetic mean of the two middle values for an even count
(numpy's interpolated median).  Junk value 0 on the empty list, which the
callers guard against. -/
def medianQ (l : List ℚ) : ℚ :=
  let s := sortQ l
  let n := s.length
  if n % 2 = 1 then s.getD (n / 2) 0
  else (s.getD (n / 2 - 1) 0 + s.getD (n / 2) 0) / 2

/-- Truncation toward zero, the conversion `astype(int)` applies to floats. -/
def ratTrunc (q : ℚ) : Int :=
  if q < 0 then -((-q).floor) else q.floor

/-- `fillna(d)` on one cell. -/
def fillNaCell (d : Val) (v : Val) : Val :=
  match v with
  | Val.na => d
  | w => w

/-- One cell of `fillna(1).astype(int)` on the freshly coerced quantity
column: missing becomes 1, numbers are truncated to integers.  A string
cell cannot occur here (the column was just produced by `pd.to_numeric` or
as an all-missing `pd.NA` column) and is left unchanged. -/
def fillIntCell : Val → Val
  | Val.na => Val.num 1
  | Val.num q => Val.num (ratTrunc q : ℚ)
  | Val.str s => Val.str s

/-- Coerced price column as a list of optional floats: the values the
`price` branch of `handle_missing_values` writes back
(`_to_numeric_clean(df["price"], remove_currency=True)` if the column
exists, an all-missing `pd.NA` column otherwise). -/
def priceCoerced (t : Table) : List (Option ℚ) :=
  match getColVals t "price" with
  | some vs => toNumericClean vs true
  | none => t.rows.map (fun _ => none)

/-- Coerced quantity column, with currency stripping disabled. -/
def qtyCoerced (t : Table) : List (Option ℚ) :=
  match getColVals t "quantity" with
  | some vs => toNumericClean vs false
  | none => t.rows.map (fun _ => none)

/-- First statement group of `handle_missing_values`: coerce the `price`
column, or synthesize it as the all-missing `pd.NA` column (dtype `object`)
when absent; the two branches of `if "price" in df.columns` are factored
through `priceCoerced`. -/
def hmStep1 (t : Table) : Table :=
  setColVals t "price" (if "price" ∈ t.headers then DType.float else DType.obj)
    ((priceCoerced t).map optToVal)

/-- Second statement group: same for `quantity`, with currency stripping
disabled, on the frame the first group produced. -/
def hmStep2 (t1 : Table) : Table :=
  setColVals t1 "quantity" (if "quantity" ∈ t1.headers then DType.float else DType.obj)
    ((qtyCoerced t1).map optToVal)

/-- Third statement group:
`df["quantity"] = df["quantity"].fillna(1).astype(int)`. -/
def hmStep3 (t2 : Table) : Table :=
  setColVals t2 "quantity" DType.int (((getColVals t2 "quantity").getD []).map fillIntCell)

/-- Fourth statement group: fill missing prices with the median of the
non-missing prices when `df["price"].notna().any()`, with 0.0 otherwise
(`fillna` keeps the column dtype). -/
def hmStep4 (t3 : Table) : Table :=
  let pv := (getColVals t3 "price").getD []
  if pv.any notnaB then
    setColVals t3 "price" (t3.dtypeOf "price") (pv.map (fillNaCell (Val.num (medianQ (numsOf pv)))))
  else
    setColVals t3 "price" (t3.dtypeOf "price") (pv.map (fillNaCell (Val.num 0)))

/-- Stage 3, `handle_missing_values`: the four statement groups in source
order. -/
def handle_missing_values (t : Table) : Table :=
  hmStep4 (hmStep3 (hmStep2 (hmStep1 t)))

/-- Final state of the caller's argument object after
`handle_missing_values(df)` returns: every statement in the function body
is an assignment `df[...] = ...`, which is an in-place `__setitem__` on the
argument, and the function returns that same object, so the argument ends
up equal to the returned table. -/
def handleMissingValuesArgAfter (t : Table) : Table :=
  handle_missing_values t

/-- Final state of the caller's argument after `clean_column_names(df)`:
the body first rebinds `df` to the fresh frame returned by `df.rename(...)`
and mutates only that copy, so the caller's object is untouched. -/
def cleanColumnNamesArgAfter (t : Table) : Table :=
  t

/-- Final state of the caller's argument after `remove_invalid_rows(df)`:
the body rebinds `df` to the fresh frame `df[...].copy()` before any
mutation, so the caller's object is untouched. -/
def removeInvalidRowsArgAfter (t : Table) : Table :=
  t

/-- Errors `remove_invalid_rows` can raise: `KeyError` from `df[missing]`,
`TypeError` from comparing a string cell with 0, `AttributeError` from
using `.str` on a non-object column. -/
inductive PdErr
  | keyError
  | typeError
  | attrError
deriving DecidableEq

/-- Boolean-mask row filtering `df[mask]`: keep the rows (with their index
labels) whose cells satisfy `p`. -/
def filterRows (p : List Val → Bool) (t : Table) : Table :=
  let kept := (t.idx.zip t.rows).filter (fun ir => p ir.2)
  { t with idx := kept.map Prod.fst, rows := kept.map Prod.snd }

/-- `reset_index(drop=True)`: renumber the row index contiguously from 0. -/
def resetIndex (t : Table) : Table :=
  { t with idx := List.range t.rows.length }

/-- First two filters of `remove_invalid_rows`:
`df = df[df["price"].notna() & df["quantity"].notna()].copy()` followed by
`df = df[(df["price"] > 0) & (df["quantity"] > 0)]`.  `df["price"]` raises
`KeyError` when the column is absent; the `> 0` comparison raises
`TypeError` when it meets a string cell of the already notna-filtered
column.  `notnaFiltered` is the frame after the first filter. -/
def notnaFiltered (t : Table) : Table :=
  filterRows (fun r => notnaB (r.getD (t.posOf "price") Val.na) &&
    notnaB (r.getD (t.posOf "quantity") Val.na)) t

/-- Result of the second filter, `df[(df["price"] > 0) & (df["quantity"] > 0)]`,
on the notna-filtered frame (whose column positions equal the original's). -/
def gtFiltered (t : Table) : Table :=
  filterRows (fun r => gt0b (r.getD (t.posOf "price") Val.na) &&
    gt0b (r.getD (t.posOf "quantity") Val.na)) (notnaFiltered t)

def dropBadNumeric (t : Table) : Except PdErr Table :=
  if "price" ∈ t.headers then
    if "quantity" ∈ t.headers then
      if ((notnaFiltered t).rows.map (fun r => r.getD (t.posOf "price") Val.na)).any isStrB then
        Except.error PdErr.typeError
      else if ((notnaFiltered t).rows.map
          (fun r => r.getD (t.posOf "quantity") Val.na)).any isStrB then
        Except.error PdErr.typeError
      else
        Except.ok (gtFiltered t)
    else
      Except.error PdErr.keyError
  else
    Except.error PdErr.keyError

/-- Stage 4, `remove_invalid_rows`: drop rows with missing or non-positive
price/quantity, then (when a `product` column exists) drop rows whose
product is missing or blank, and reindex from zero. -/
def remove_invalid_rows (t : Table) : Except PdErr Table :=
  match dropBadNumeric t with
  | Except.error e => Except.error e
  | Except.ok t2 =>
    if "product" ∈ t2.headers then
      if t2.dtypeOf "product" ≠ DType.obj then
        Except.error PdErr.attrError
      else
        Except.ok (resetIndex (filterRows (fun r => productKeep (r.getD (t2.posOf "product") Val.na)) t2))
    else
      Except.ok (resetIndex t2)

/-- The full cleaning pipeline of the script's main block (after loading):
normalize, impute, filter. -/
def pipeline (t : Table) : Except PdErr Table :=
  remove_invalid_rows (handle_missing_values (clean_column_names t))

/-- The three-row scenario table of the spec (raw, as `load_data` returns
it: every cell text, every column `object`). -/
def tScenario : Table :=
  { headers := ["Product", "Price", "Quantity"],
    dtypes := [DType.obj, DType.obj, DType.obj],
    idx := [0, 1, 2],
    rows := [[Val.str " Good", Val.str "$10.00", Val.str "2"],
             [Val.str "BadPrice", Val.str "-5.00", Val.str "1"],
             [Val.str "NoQty", Val.str "12.00", Val.str ""]] }

/-- Expected cleaned table for the scenario: two rows, reindexed. -/
def tScenarioOut : Table :=
  { headers := ["product", "price", "quantity"],
    dtypes := [DType.obj, DType.float, DType.int],
    idx := [0, 1],
    rows := [[Val.str "Good", Val.num 10, Val.num 2],
             [Val.str "NoQty", Val.num 12, Val.num 1]] }

/-- Witness table for the median fill: prices "4", missing, "10" (an even
count of non-missing values). -/
def tMedian : Table :=
  { headers := ["price"],
    dtypes := [DType.obj],
    idx := [0, 1, 2],
    rows := [[Val.str "4"], [Val.str ""], [Val.str "10"]] }

/-- Witness table for the quantity fill: one missing quantity, one
fractional one. -/
def tQty : Table :=
  { headers := ["quantity"],
    dtypes := [DType.obj],
    idx := [0, 1],
    rows := [[Val.str ""], [Val.str "2.7"]] }

/-- Witness table for cell trimming: a textual column holding a missing
cell and a padded string. -/
def tTrim : Table :=
  { headers := ["note"],
    dtypes := [DType.obj],
    idx := [0, 1],
    rows := [[Val.na], [Val.str "  x "]] }

/-- Witness table for the row filter: fully numeric price/quantity. -/
def tNum : Table :=
  { headers := ["price", "quantity"],
    dtypes := [DType.float, DType.float],
    idx := [0, 1, 2],
    rows := [[Val.num 2, Val.num 1], [Val.num (-1), Val.num 1], [Val.num 3, Val.num 0]] }

/-- Rows of `tNum` surviving `remove_invalid_rows`. -/
def tNumOut : Table :=
  { headers := ["price", "quantity"],
    dtypes := [DType.float, DType.float],
    idx := [0],
    rows := [[Val.num 2, Val.num 1]] }

/-- Witness table for the product filter: a blank product next to a valid
one, both with positive price and quantity. -/
def tProd : Table :=
  { headers := ["product", "price", "quantity"],
    dtypes := [DType.obj, DType.float, DType.float],
    idx := [0, 1],
    rows := [[Val.str "", Val.num 5, Val.num 1], [Val.str "ok", Val.num 5, Val.num 1]] }

/-- Surviving rows of `tProd`. -/
def tProdOut : Table :=
  { headers := ["product", "price", "quantity"],
    dtypes := [DType.obj, DType.float, DType.float],
    idx := [0],
    rows := [[Val.str "ok", Val.num 5, Val.num 1]] }

/-- Table whose price column still holds text: both distinguished columns
exist, yet `remove_invalid_rows` raises. -/
def tTypeErr : Table :=
  { headers := ["price", "quantity"],
    dtypes := [DType.obj, DType.obj],
    idx := [0],
    rows := [[Val.str "abc", Val.str "1"]] }

/-- Table lacking the price column. -/
def tNoPrice : Table :=
  { headers := ["quantity"],
    dtypes := [DType.obj],
    idx := [0],
    rows := [[Val.str "1"]] }

/-- Small table on which `handle_missing_values` visibly rewrites its
argument: the price text "1" becomes the float 1. -/
def tMut : Table :=
  { headers := ["price"],
    dtypes := [DType.obj],
    idx := [0],
    rows := [[Val.str "1"]] }

attribute [local semireducible] Rat.mul Rat.add Rat.inv Rat.sub

theorem lowerChar_idem (c : Char) : lowerChar (lowerChar c) = lowerChar c := by
  by_cases h : 65 ≤ c.toNat ∧ c.toNat ≤ 90
  · have hc : lowerChar c = Char.ofNat (c.toNat + 32) := by rw [lowerChar, if_pos h]
    rw [hc]
    obtain ⟨h1, h2⟩ := h
    set n := c.toNat with hn
    clear_value n
    interval_cases n <;> decide
  · have hc : lowerChar c = c := by rw [lowerChar, if_neg h]
    rw [hc, lowerChar, if_neg h]

theorem mem_collapseWsAux (c : Char) (l : List Char) :
    ∀ b, c ∈ collapseWsAux b l → isSpace c = false ∧ (c = '_' ∨ c ∈ l) := by
  induction l with
  | nil =>
    intro b h
    simp [collapseWsAux] at h
  | cons a l ih =>
    intro b h
    by_cases ha : isSpace a
    · rw [show collapseWsAux b (a :: l) =
          (if b then [] else ['_']) ++ collapseWsAux true l from by
            rw [collapseWsAux, if_pos ha]] at h
      rcases List.mem_append.mp h with h1 | h2
      · cases b with
        | false =>
          simp at h1
          subst h1
          exact ⟨by decide, Or.inl rfl⟩
        | true => simp at h1
      · rcases ih true h2 with ⟨hs, hm⟩
        exact ⟨hs, hm.imp id (List.mem_cons_of_mem a)⟩
    · rw [show collapseWsAux b (a :: l) = a :: collapseWsAux false l from by
          rw [collapseWsAux, if_neg ha]] at h
      rcases List.mem_cons.mp h with h1 | h2
      · refine ⟨?_, Or.inr (by rw [h1]; exact List.mem_cons_self a l)⟩
        rw [h1]
        simpa using ha
      · rcases ih false h2 with ⟨hs, hm⟩
        exact ⟨hs, hm.imp id (List.mem_cons_of_mem a)⟩

theorem dropWhile_eq_self_of (p : Char → Bool) (l : List Char)
    (h : ∀ c ∈ l, p c = false) : l.dropWhile p = l := by
  cases l with
  | nil => rfl
  | cons a l => simp [List.dropWhile_cons, h a (List.mem_cons_self a l)]

theorem pyStripL_eq_self_of (l : List Char) (h : ∀ c ∈ l, isSpace c = false) :
    pyStripL l = l := by
  unfold pyStripL
  rw [dropWhile_eq_self_of _ _ h]
  rw [dropWhile_eq_self_of _ _ (fun c hc => h c (List.mem_reverse.mp hc))]
  exact List.reverse_reverse l

theorem collapseWsAux_eq_self_of (l : List Char) (h : ∀ c ∈ l, isSpace c = false) :
    ∀ b, collapseWsAux b l = l := by
  induction l with
  | nil => intro b; rfl
  | cons a l ih =>
    intro b
    rw [show collapseWsAux b (a :: l) = a :: collapseWsAux false l from by
        rw [collapseWsAux, if_neg (by simp [h a (List.mem_cons_self a l)])]]
    rw [ih (fun c hc => h c (List.mem_cons_of_mem a hc)) false]

theorem canonName_idem (s : String) : canonName (canonName s) = canonName s := by
  unfold canonName
  set l := collapseWsAux false ((pyStripL s.data).map lowerChar) with hl
  have hmem : ∀ c ∈ l, isSpace c = false ∧ (c = '_' ∨ c ∈ (pyStripL s.data).map lowerChar) :=
    fun c hc => mem_collapseWsAux c _ false (hl ▸ hc)
  have hns : ∀ c ∈ l, isSpace c = false := fun c hc => (hmem c hc).1
  have hdata : (String.mk l).data = l := rfl
  have hstrip : pyStripL l = l := pyStripL_eq_self_of l hns
  have hlow : l.map lowerChar = l := by
    conv_rhs => rw [← List.map_id l]
    refine List.map_eq_map_iff.mpr (fun c hc => ?_)
    rcases (hmem c hc).2 with h1 | h2
    · subst h1
      decide
    · rcases List.mem_map.mp h2 with ⟨d, _, rfl⟩
      exact lowerChar_idem d
  rw [hdata, hstrip, hlow, collapseWsAux_eq_self_of l hns false]

/-- C8: `normalizeColumns` is idempotent on column names — canonicalizing
the column names of an already canonicalized table changes nothing. -/
theorem clean_column_names_c8 (t : Table) :
    (clean_column_names (clean_column_names t)).headers = (clean_column_names t).headers := by
  show (t.headers.map canonName).map canonName = t.headers.map canonName
  rw [List.map_map]
  exact List.map_eq_map_iff.mpr (fun x _ => by simpa using canonName_idem x)

/-- C4: `coerceNumeric` is total with output parallel to the input (same
length, the i-th output the coercion of the i-th input); the sentinels and
every unparseable text map to no value; and the spec's concrete scenario
holds. -/
theorem toNumericClean_c4 :
    (∀ (vs : List Val) (rc : Bool), (toNumericClean vs rc).length = vs.length)
  ∧ (∀ (vs : List Val) (rc : Bool), toNumericClean vs rc = vs.map (coerceCell rc))
  ∧ (∀ (rc : Bool) (v : Val),
      (numPrep rc v ∈ sentinels ∨ parseFloat (numPrep rc v) = none) →
        coerceCell rc v = none)
  ∧ toNumericClean [Val.str "N/A", Val.str "", Val.str "7.50", Val.str "abc"] true =
      [none, none, some (15 / 2 : ℚ), none] := by
  refine ⟨fun vs rc => List.length_map vs _, fun vs rc => rfl, ?_, by decide⟩
  intro rc v h
  show (if numPrep rc v ∈ sentinels then none else parseFloat (numPrep rc v)) = none
  rcases h with h | h
  · rw [if_pos h]
  · by_cases hs : numPrep rc v ∈ sentinels
    · rw [if_pos hs]
    · rw [if_neg hs, h]

theorem toNumericClean_c4_witness :
    coerceCell true (Val.str "abc") = none ∧
      (toNumericClean [Val.str "5"] true).length = 1 :=
  ⟨toNumericClean_c4.2.2.1 true (Val.str "abc") (Or.inl (by decide)),
   toNumericClean_c4.1 [Val.str "5"] true⟩

theorem getD_set_self {α : Type} (l : List α) (p : Nat) (v d : α) (h : p < l.length) :
    (l.set p v).getD p d = v := by
  induction l generalizing p with
  | nil => simp at h
  | cons a l ih =>
    cases p with
    | zero => rfl
    | succ p => simpa using ih p (by simpa using h)

theorem getD_set_ne {α : Type} (l : List α) (p q : Nat) (v d : α) (h : p ≠ q) :
    (l.set p v).getD q d = l.getD q d := by
  simp [List.getD, List.getElem?_set_ne h]

theorem getD_concat_self {α : Type} (l : List α) (v d : α) :
    (l ++ [v]).getD l.length d = v := by
  induction l with
  | nil => rfl
  | cons a l ih => simpa using ih

theorem findIdx_append_of_exists {α : Type} (p : α → Bool) (a b : List α)
    (h : ∃ x ∈ a, p x = true) : (a ++ b).findIdx p = a.findIdx p := by
  induction a with
  | nil => simp at h
  | cons x a ih =>
    rcases h with ⟨y, hy, hpy⟩
    by_cases hx : p x
    · simp [List.findIdx_cons, hx]
    · have hmem : y ∈ a := by
        rcases List.mem_cons.mp hy with h1 | h1
        · exact absurd (h1 ▸ hpy) (by simpa using hx)
        · exact h1
      simp [List.findIdx_cons, hx, ih ⟨y, hmem, hpy⟩]

theorem findIdx_append_of_forall {α : Type} (p : α → Bool) (a b : List α)
    (h : ∀ x ∈ a, p x = false) : (a ++ b).findIdx p = a.length + b.findIdx p := by
  induction a with
  | nil => simp
  | cons x a ih =>
    simp [List.findIdx_cons, h x (List.mem_cons_self x a),
      ih (fun y hy => h y (List.mem_cons_of_mem x hy))]
    omega

theorem getD_findIdx_beq (l : List String) (n d : String) (h : n ∈ l) :
    l.getD (l.findIdx (fun x => x == n)) d = n := by
  induction l with
  | nil => simp at h
  | cons a l ih =>
    by_cases ha : a = n
    · simp [List.findIdx_cons, ha]
    · have hmem : n ∈ l := by
        rcases List.mem_cons.mp h with h1 | h1
        · exact absurd h1.symm ha
        · exact h1
      simpa [List.findIdx_cons, beq_eq_false_iff_ne.mpr ha, List.getD_cons_succ] using ih hmem

theorem mem_zipWith {α β γ : Type} (f : α → β → γ) (as : List α) (bs : List β) (x : γ)
    (h : x ∈ List.zipWith f as bs) : ∃ a ∈ as, ∃ b ∈ bs, x = f a b := by
  induction as generalizing bs with
  | nil => simp at h
  | cons a as ih =>
    cases bs with
    | nil => simp at h
    | cons b bs =>
      rcases List.mem_cons.mp h with h1 | h1
      · exact ⟨a, List.mem_cons_self a as, b, List.mem_cons_self b bs, h1⟩
      · rcases ih bs h1 with ⟨a2, ha2, b2, hb2, hx⟩
        exact ⟨a2, List.mem_cons_of_mem a ha2, b2, List.mem_cons_of_mem b hb2, hx⟩

theorem posOf_lt_length (t : Table) (n : String) (h : n ∈ t.headers) :
    t.posOf n < t.headers.length :=
  List.findIdx_lt_length_of_exists ⟨n, h, by simp⟩

theorem headers_getD_posOf (t : Table) (n d : String) (h : n ∈ t.headers) :
    t.headers.getD (t.posOf n) d = n :=
  getD_findIdx_beq t.headers n d h

theorem posOf_eq_length (t : Table) (n : String) (h : n ∉ t.headers) :
    t.posOf n = t.headers.length :=
  List.findIdx_eq_length.mpr (fun x hx =>
    beq_eq_false_iff_ne.mpr (fun e => h (e ▸ hx)))

theorem posOf_ne (t : Table) (m n : String) (hm : m ∈ t.headers) (hn : n ∈ t.headers)
    (hmn : m ≠ n) : t.posOf m ≠ t.posOf n := by
  intro heq
  have h1 := headers_getD_posOf t m "" hm
  rw [heq, headers_getD_posOf t n "" hn] at h1
  exact hmn h1.symm

theorem map_getD_zipWith_set (rows : List (List Val)) (vs : List Val) (p : Nat)
    (hlen : rows.length = vs.length) (hb : ∀ r ∈ rows, p < r.length) :
    (List.zipWith (fun r v => r.set p v) rows vs).map (fun r => r.getD p Val.na) = vs := by
  induction rows generalizing vs with
  | nil =>
    cases vs with
    | nil => rfl
    | cons v vs => simp at hlen
  | cons r rows ih =>
    cases vs with
    | nil => simp at hlen
    | cons v vs =>
      simp only [List.zipWith_cons_cons, List.map_cons]
      rw [getD_set_self r p v Val.na (hb r (List.mem_cons_self r rows))]
      rw [ih vs (by simpa using hlen) (fun r2 hr2 => hb r2 (List.mem_cons_of_mem r hr2))]

theorem map_getD_zipWith_set_ne (rows : List (List Val)) (vs : List Val) (p q : Nat)
    (hpq : p ≠ q) :
    (List.zipWith (fun r v => r.set p v) rows vs).map (fun r => r.getD q Val.na) =
      (rows.take vs.length).map (fun r => r.getD q Val.na) := by
  induction rows generalizing vs with
  | nil => simp
  | cons r rows ih =>
    cases vs with
    | nil => simp
    | cons v vs =>
      simp only [List.zipWith_cons_cons, List.map_cons, List.length_cons,
        List.take_succ_cons]
      rw [getD_set_ne r p q v Val.na hpq, ih vs]

theorem map_getD_zipWith_concat (rows : List (List Val)) (vs : List Val) (L : Nat)
    (hlen : rows.length = vs.length) (hb : ∀ r ∈ rows, r.length = L) :
    (List.zipWith (fun r v => r ++ [v]) rows vs).map (fun r => r.getD L Val.na) = vs := by
  induction rows generalizing vs with
  | nil =>
    cases vs with
    | nil => rfl
    | cons v vs => simp at hlen
  | cons r rows ih =>
    cases vs with
    | nil => simp at hlen
    | cons v vs =>
      simp only [List.zipWith_cons_cons, List.map_cons]
      have hhd : (r ++ [v]).getD L Val.na = v := by
        rw [show L = r.length from (hb r (List.mem_cons_self r rows)).symm]
        exact getD_concat_self r v Val.na
      rw [hhd, ih vs (by simpa using hlen) (fun r2 hr2 => hb r2 (List.mem_cons_of_mem r hr2))]

theorem map_getD_zipWith_concat_lt (rows : List (List Val)) (vs : List Val) (q : Nat)
    (hb : ∀ r ∈ rows, q < r.length) :
    (List.zipWith (fun r v => r ++ [v]) rows vs).map (fun r => r.getD q Val.na) =
      (rows.take vs.length).map (fun r => r.getD q Val.na) := by
  induction rows generalizing vs with
  | nil => simp
  | cons r rows ih =>
    cases vs with
    | nil => simp
    | cons v vs =>
      simp only [List.zipWith_cons_cons, List.map_cons, List.length_cons,
        List.take_succ_cons]
      rw [List.getD_append r [v] Val.na q (hb r (List.mem_cons_self r rows))]
      rw [ih vs (fun r2 hr2 => hb r2 (List.mem_cons_of_mem r hr2))]

theorem setColVals_headers_of_mem (t : Table) (n : String) (dt : DType) (vs : List Val)
    (h : n ∈ t.headers) : (setColVals t n dt vs).headers = t.headers := by
  rw [setColVals, if_pos h]

theorem setColVals_headers_of_not_mem (t : Table) (n : String) (dt : DType) (vs : List Val)
    (h : n ∉ t.headers) : (setColVals t n dt vs).headers = t.headers ++ [n] := by
  rw [setColVals, if_neg h]

theorem mem_setColVals_headers (t : Table) (n m : String) (dt : DType) (vs : List Val) :
    m ∈ (setColVals t n dt vs).headers ↔ m ∈ t.headers ∨ m = n := by
  by_cases h : n ∈ t.headers
  · rw [setColVals_headers_of_mem t n dt vs h]
    constructor
    · exact Or.inl
    · rintro (hm | rfl)
      · exact hm
      · exact h
  · rw [setColVals_headers_of_not_mem t n dt vs h]
    simp

theorem setColVals_rows_length (t : Table) (n : String) (dt : DType) (vs : List Val)
    (h : vs.length = t.rows.length) :
    (setColVals t n dt vs).rows.length = t.rows.length := by
  unfold setColVals
  split <;> simp [List.length_zipWith, h]

theorem setColVals_aligned (t : Table) (n : String) (dt : DType) (vs : List Val)
    (halign : ∀ r ∈ t.rows, r.length = t.headers.length) :
    ∀ r ∈ (setColVals t n dt vs).rows, r.length = (setColVals t n dt vs).headers.length := by
  intro r hr
  by_cases h : n ∈ t.headers
  · rw [setColVals, if_pos h] at hr ⊢
    rcases mem_zipWith _ _ _ _ hr with ⟨a, ha, b, _, rfl⟩
    simp [List.length_set, halign a ha]
  · rw [setColVals, if_neg h] at hr ⊢
    rcases mem_zipWith _ _ _ _ hr with ⟨a, ha, b, _, rfl⟩
    simp [halign a ha]

theorem setColVals_dtypes_length (t : Table) (n : String) (dt : DType) (vs : List Val)
    (hd : t.dtypes.length = t.headers.length) :
    (setColVals t n dt vs).dtypes.length = (setColVals t n dt vs).headers.length := by
  unfold setColVals
  split <;> simp [hd]

theorem setColVals_idx (t : Table) (n : String) (dt : DType) (vs : List Val) :
    (setColVals t n dt vs).idx = t.idx := by
  unfold setColVals
  split <;> rfl

theorem getColVals_length (t : Table) (n : String) (vs : List Val)
    (h : getColVals t n = some vs) : vs.length = t.rows.length := by
  unfold getColVals at h
  split at h
  · cases h
    exact List.length_map t.rows _
  · cases h

theorem getColVals_setColVals_self (t : Table) (n : String) (dt : DType) (vs : List Val)
    (halign : ∀ r ∈ t.rows, r.length = t.headers.length)
    (hlen : vs.length = t.rows.length) :
    getColVals (setColVals t n dt vs) n = some vs := by
  by_cases h : n ∈ t.headers
  · unfold getColVals
    rw [if_pos (by rw [setColVals_headers_of_mem t n dt vs h]; exact h)]
    have hpos : (setColVals t n dt vs).posOf n = t.posOf n := by
      unfold Table.posOf
      rw [setColVals_headers_of_mem t n dt vs h]
    rw [hpos]
    have hrows : (setColVals t n dt vs).rows =
        List.zipWith (fun r v => r.set (t.posOf n) v) t.rows vs := by
      rw [setColVals, if_pos h]
    rw [hrows]
    exact congrArg some (map_getD_zipWith_set t.rows vs (t.posOf n) hlen.symm
      (fun r hr => by rw [halign r hr]; exact posOf_lt_length t n h))
  · unfold getColVals
    rw [if_pos (by rw [setColVals_headers_of_not_mem t n dt vs h]; simp)]
    have hpos : (setColVals t n dt vs).posOf n = t.headers.length := by
      unfold Table.posOf
      rw [setColVals_headers_of_not_mem t n dt vs h]
      rw [findIdx_append_of_forall _ _ _
        (fun x hx => beq_eq_false_iff_ne.mpr (by rintro rfl; exact h hx))]
      simp [List.findIdx_cons]
    rw [hpos]
    have hrows : (setColVals t n dt vs).rows =
        List.zipWith (fun r v => r ++ [v]) t.rows vs := by
      rw [setColVals, if_neg h]
    rw [hrows]
    exact congrArg some (map_getD_zipWith_concat t.rows vs t.headers.length hlen.symm halign)

theorem getColVals_setColVals_other (t : Table) (n m : String) (dt : DType) (vs : List Val)
    (hmn : m ≠ n)
    (halign : ∀ r ∈ t.rows, r.length = t.headers.length)
    (hlen : vs.length = t.rows.length) :
    getColVals (setColVals t n dt vs) m = getColVals t m := by
  by_cases h : n ∈ t.headers
  · have hh := setColVals_headers_of_mem t n dt vs h
    have hrows : (setColVals t n dt vs).rows =
        List.zipWith (fun r v => r.set (t.posOf n) v) t.rows vs := by
      rw [setColVals, if_pos h]
    by_cases hm : m ∈ t.headers
    · unfold getColVals
      rw [if_pos (by rw [hh]; exact hm), if_pos hm]
      have hpos : (setColVals t n dt vs).posOf m = t.posOf m := by
        unfold Table.posOf
        rw [hh]
      rw [hpos, hrows]
      rw [map_getD_zipWith_set_ne t.rows vs (t.posOf n) (t.posOf m)
        (fun e => posOf_ne t m n hm h hmn e.symm)]
      rw [hlen, List.take_length]
    · unfold getColVals
      rw [if_neg (by rw [hh]; exact hm), if_neg hm]
  · have hh := setColVals_headers_of_not_mem t n dt vs h
    have hrows : (setColVals t n dt vs).rows =
        List.zipWith (fun r v => r ++ [v]) t.rows vs := by
      rw [setColVals, if_neg h]
    by_cases hm : m ∈ t.headers
    · unfold getColVals
      rw [if_pos (by rw [hh]; exact List.mem_append.mpr (Or.inl hm)), if_pos hm]
      have hpos : (setColVals t n dt vs).posOf m = t.posOf m := by
        unfold Table.posOf
        rw [hh]
        exact findIdx_append_of_exists _ _ _ ⟨m, hm, by simp⟩
      rw [hpos, hrows]
      rw [map_getD_zipWith_concat_lt t.rows vs (t.posOf m)
        (fun r hr => by rw [halign r hr]; exact posOf_lt_length t m hm)]
      rw [hlen, List.take_length]
    · unfold getColVals
      rw [if_neg (by rw [hh]; simp [hm, hmn]), if_neg hm]

theorem dtypeOf_setColVals_self (t : Table) (n : String) (dt : DType) (vs : List Val)
    (hd : t.dtypes.length = t.headers.length) :
    (setColVals t n dt vs).dtypeOf n = dt := by
  by_cases h : n ∈ t.headers
  · have hpos : (setColVals t n dt vs).posOf n = t.posOf n := by
      unfold Table.posOf
      rw [setColVals_headers_of_mem t n dt vs h]
    unfold Table.dtypeOf
    rw [hpos, show (setColVals t n dt vs).dtypes = t.dtypes.set (t.posOf n) dt from by
      rw [setColVals, if_pos h]]
    exact getD_set_self t.dtypes (t.posOf n) dt DType.obj (by rw [hd]; exact posOf_lt_length t n h)
  · have hpos : (setColVals t n dt vs).posOf n = t.headers.length := by
      unfold Table.posOf
      rw [setColVals_headers_of_not_mem t n dt vs h]
      rw [findIdx_append_of_forall _ _ _
        (fun x hx => beq_eq_false_iff_ne.mpr (by rintro rfl; exact h hx))]
      simp [List.findIdx_cons]
    unfold Table.dtypeOf
    rw [hpos, show (setColVals t n dt vs).dtypes = t.dtypes ++ [dt] from by
      rw [setColVals, if_neg h]]
    rw [show t.headers.length = t.dtypes.length from hd.symm]
    exact getD_concat_self t.dtypes dt DType.obj

theorem dtypeOf_setColVals_other (t : Table) (n m : String) (dt : DType) (vs : List Val)
    (hmn : m ≠ n)
    (hd : t.dtypes.length = t.headers.length) :
    (setColVals t n dt vs).dtypeOf m = t.dtypeOf m := by
  by_cases h : n ∈ t.headers
  · have hpos : (setColVals t n dt vs).posOf m = t.posOf m := by
      unfold Table.posOf
      rw [setColVals_headers_of_mem t n dt vs h]
    unfold Table.dtypeOf
    rw [hpos, show (setColVals t n dt vs).dtypes = t.dtypes.set (t.posOf n) dt from by
      rw [setColVals, if_pos h]]
    refine getD_set_ne t.dtypes (t.posOf n) (t.posOf m) dt DType.obj ?_
    by_cases hm : m ∈ t.headers
    · exact fun e => posOf_ne t m n hm h hmn e.symm
    · rw [posOf_eq_length t m hm]
      exact Nat.ne_of_lt (posOf_lt_length t n h)
  · unfold Table.dtypeOf
    rw [show (setColVals t n dt vs).dtypes = t.dtypes ++ [dt] from by
      rw [setColVals, if_neg h]]
    by_cases hm : m ∈ t.headers
    · have hpos : (setColVals t n dt vs).posOf m = t.posOf m := by
        unfold Table.posOf
        rw [setColVals_headers_of_not_mem t n dt vs h]
        exact findIdx_append_of_exists _ _ _ ⟨m, hm, by simp⟩
      rw [hpos]
      exact List.getD_append t.dtypes [dt] DType.obj (t.posOf m)
        (by rw [hd]; exact posOf_lt_length t m hm)
    · have hpos : (setColVals t n dt vs).posOf m = t.headers.length + 1 := by
        unfold Table.posOf
        rw [setColVals_headers_of_not_mem t n dt vs h]
        rw [findIdx_append_of_forall _ _ _
          (fun x hx => beq_eq_false_iff_ne.mpr (by rintro rfl; exact hm hx))]
        simp [List.findIdx_cons, beq_eq_false_iff_ne.mpr (fun e => hmn e.symm)]
      rw [hpos, posOf_eq_length t m hm]
      rw [List.getD_eq_default _ _ (by simp; omega)]
      rw [List.getD_eq_default _ _ (by omega)]

theorem priceCoerced_length (t : Table) : (priceCoerced t).length = t.rows.length := by
  unfold priceCoerced
  cases hg : getColVals t "price" with
  | none => exact List.length_map t.rows _
  | some vs =>
    unfold toNumericClean
    rw [List.length_map]
    exact getColVals_length t "price" vs hg

theorem qtyCoerced_length (t : Table) : (qtyCoerced t).length = t.rows.length := by
  unfold qtyCoerced
  cases hg : getColVals t "quantity" with
  | none => exact List.length_map t.rows _
  | some vs =>
    unfold toNumericClean
    rw [List.length_map]
    exact getColVals_length t "quantity" vs hg

theorem handle_missing_values_cols (t : Table) (h : t.WF) :
    getColVals (handle_missing_values t) "price" =
      some (((priceCoerced t).map optToVal).map
        (fillNaCell
          (if ((priceCoerced t).map optToVal).any notnaB then
            Val.num (medianQ (numsOf ((priceCoerced t).map optToVal)))
          else Val.num 0)))
  ∧ getColVals (handle_missing_values t) "quantity" =
      some (((qtyCoerced t).map optToVal).map fillIntCell)
  ∧ (handle_missing_values t).dtypeOf "quantity" = DType.int := by
  obtain ⟨hd, hi, halign⟩ := h
  set cp := (priceCoerced t).map optToVal with hcp
  have hcplen : cp.length = t.rows.length := by
    rw [hcp, List.length_map]
    exact priceCoerced_length t
  set dt1 := (if "price" ∈ t.headers then DType.float else DType.obj) with hdt1
  have hT1 : hmStep1 t = setColVals t "price" dt1 cp := rfl
  have hT1align : ∀ r ∈ (hmStep1 t).rows, r.length = (hmStep1 t).headers.length := by
    rw [hT1]
    exact setColVals_aligned t "price" dt1 cp halign
  have hT1rl : (hmStep1 t).rows.length = t.rows.length := by
    rw [hT1]
    exact setColVals_rows_length t "price" dt1 cp hcplen
  have hT1dl : (hmStep1 t).dtypes.length = (hmStep1 t).headers.length := by
    rw [hT1]
    exact setColVals_dtypes_length t "price" dt1 cp hd
  have hpmem1 : "price" ∈ (hmStep1 t).headers := by
    rw [hT1, mem_setColVals_headers]
    exact Or.inr rfl
  have hqmem1 : "quantity" ∈ (hmStep1 t).headers ↔ "quantity" ∈ t.headers := by
    rw [hT1, mem_setColVals_headers]
    exact or_iff_left (by decide)
  have hq1 : qtyCoerced (hmStep1 t) = qtyCoerced t := by
    unfold qtyCoerced
    by_cases hq : "quantity" ∈ t.headers
    · obtain ⟨vs, hvs⟩ : ∃ vs, getColVals t "quantity" = some vs := by
        unfold getColVals
        rw [if_pos hq]
        exact ⟨_, rfl⟩
      rw [hT1, getColVals_setColVals_other t "price" "quantity" dt1 cp (by decide) halign hcplen,
        hvs]
    · have e1 : getColVals (hmStep1 t) "quantity" = none := by
        unfold getColVals
        rw [if_neg (fun hmm => hq (hqmem1.mp hmm))]
      have e2 : getColVals t "quantity" = none := by
        unfold getColVals
        rw [if_neg hq]
      rw [e1, e2, List.map_const', List.map_const', hT1rl]
  set cq := (qtyCoerced t).map optToVal with hcq
  have hcqlen : cq.length = (hmStep1 t).rows.length := by
    rw [hcq, List.length_map, qtyCoerced_length t, hT1rl]
  set dt2 := (if "quantity" ∈ (hmStep1 t).headers then DType.float else DType.obj) with hdt2
  have hT2 : hmStep2 (hmStep1 t) = setColVals (hmStep1 t) "quantity" dt2 cq := by
    unfold hmStep2
    rw [hq1]
  have hT2align : ∀ r ∈ (hmStep2 (hmStep1 t)).rows,
      r.length = (hmStep2 (hmStep1 t)).headers.length := by
    rw [hT2]
    exact setColVals_aligned (hmStep1 t) "quantity" dt2 cq hT1align
  have hT2rl : (hmStep2 (hmStep1 t)).rows.length = (hmStep1 t).rows.length := by
    rw [hT2]
    exact setColVals_rows_length (hmStep1 t) "quantity" dt2 cq hcqlen
  have hT2dl : (hmStep2 (hmStep1 t)).dtypes.length = (hmStep2 (hmStep1 t)).headers.length := by
    rw [hT2]
    exact setColVals_dtypes_length (hmStep1 t) "quantity" dt2 cq hT1dl
  have hgq2 : getColVals (hmStep2 (hmStep1 t)) "quantity" = some cq := by
    rw [hT2]
    exact getColVals_setColVals_self (hmStep1 t) "quantity" dt2 cq hT1align hcqlen
  have hgp2 : getColVals (hmStep2 (hmStep1 t)) "price" = some cp := by
    rw [hT2, getColVals_setColVals_other (hmStep1 t) "quantity" "price" dt2 cq (by decide)
      hT1align hcqlen]
    rw [hT1]
    exact getColVals_setColVals_self t "price" dt1 cp halign hcplen
  have hT3 : hmStep3 (hmStep2 (hmStep1 t)) =
      setColVals (hmStep2 (hmStep1 t)) "quantity" DType.int (cq.map fillIntCell) := by
    unfold hmStep3
    rw [hgq2]
    rfl
  have hfl : (cq.map fillIntCell).length = (hmStep2 (hmStep1 t)).rows.length := by
    rw [List.length_map, hT2rl]
    exact hcqlen
  have hT3align : ∀ r ∈ (hmStep3 (hmStep2 (hmStep1 t))).rows,
      r.length = (hmStep3 (hmStep2 (hmStep1 t))).headers.length := by
    rw [hT3]
    exact setColVals_aligned (hmStep2 (hmStep1 t)) "quantity" DType.int (cq.map fillIntCell)
      hT2align
  have hT3rl : (hmStep3 (hmStep2 (hmStep1 t))).rows.length =
      (hmStep2 (hmStep1 t)).rows.length := by
    rw [hT3]
    exact setColVals_rows_length (hmStep2 (hmStep1 t)) "quantity" DType.int
      (cq.map fillIntCell) hfl
  have hT3dl : (hmStep3 (hmStep2 (hmStep1 t))).dtypes.length =
      (hmStep3 (hmStep2 (hmStep1 t))).headers.length := by
    rw [hT3]
    exact setColVals_dtypes_length (hmStep2 (hmStep1 t)) "quantity" DType.int
      (cq.map fillIntCell) hT2dl
  have hgp3 : getColVals (hmStep3 (hmStep2 (hmStep1 t))) "price" = some cp := by
    rw [hT3, getColVals_setColVals_other (hmStep2 (hmStep1 t)) "quantity" "price" DType.int
      (cq.map fillIntCell) (by decide) hT2align hfl]
    exact hgp2
  have hgq3 : getColVals (hmStep3 (hmStep2 (hmStep1 t))) "quantity" =
      some (cq.map fillIntCell) := by
    rw [hT3]
    exact getColVals_setColVals_self (hmStep2 (hmStep1 t)) "quantity" DType.int
      (cq.map fillIntCell) hT2align hfl
  have hdtq3 : (hmStep3 (hmStep2 (hmStep1 t))).dtypeOf "quantity" = DType.int := by
    rw [hT3]
    exact dtypeOf_setColVals_self (hmStep2 (hmStep1 t)) "quantity" DType.int
      (cq.map fillIntCell) hT2dl
  have hcpT3 : cp.length = (hmStep3 (hmStep2 (hmStep1 t))).rows.length := by
    rw [hT3rl, hT2rl, hT1rl]
    exact hcplen
  have hT4 : handle_missing_values t =
      setColVals (hmStep3 (hmStep2 (hmStep1 t))) "price"
        ((hmStep3 (hmStep2 (hmStep1 t))).dtypeOf "price")
        (cp.map (fillNaCell
          (if cp.any notnaB then Val.num (medianQ (numsOf cp)) else Val.num 0))) := by
    show hmStep4 (hmStep3 (hmStep2 (hmStep1 t))) = _
    unfold hmStep4
    rw [hgp3]
    by_cases hany : cp.any notnaB
    · rw [if_pos (by simpa using hany), if_pos hany]
      rfl
    · rw [if_neg (by simpa using hany), if_neg hany]
      rfl
  refine ⟨?_, ?_, ?_⟩
  · rw [hT4]
    exact getColVals_setColVals_self (hmStep3 (hmStep2 (hmStep1 t))) "price" _ _ hT3align
      (by rw [List.length_map]; exact hcpT3)
  · rw [hT4, getColVals_setColVals_other (hmStep3 (hmStep2 (hmStep1 t))) "price" "quantity" _ _
      (by decide) hT3align (by rw [List.length_map]; exact hcpT3)]
    exact hgq3
  · rw [hT4, dtypeOf_setColVals_other (hmStep3 (hmStep2 (hmStep1 t))) "price" "quantity" _ _
      (by decide) hT3dl]
    exact hdtq3

/-- C2: `handleMissingValues` fills every missing price with the exact
median (order statistic) of the non-missing coerced prices when at least
one exists, keeps the non-missing ones, and sets every price to 0.0 when
none exists. -/
theorem handle_missing_values_c2 (t : Table) (h : t.WF) :
    ((priceCoerced t).any Option.isSome = true →
      getColVals (handle_missing_values t) "price" =
        some ((priceCoerced t).map (fun o =>
          Val.num (o.getD (medianQ ((priceCoerced t).filterMap id)))))) ∧
    ((priceCoerced t).any Option.isSome = false →
      getColVals (handle_missing_values t) "price" =
        some ((priceCoerced t).map (fun _ => Val.num 0))) := by
  have hcols := (handle_missing_values_cols t h).1
  have hany : ∀ l : List (Option ℚ), (l.map optToVal).any notnaB = l.any Option.isSome := by
    intro l
    induction l with
    | nil => rfl
    | cons o l ih => cases o <;> simp [List.any_cons, ih, optToVal, notnaB]
  have hnums : numsOf ((priceCoerced t).map optToVal) = (priceCoerced t).filterMap id := by
    unfold numsOf
    rw [List.filterMap_map]
    exact congrArg (fun f => List.filterMap f (priceCoerced t))
      (funext fun o => by cases o <;> rfl)
  constructor
  · intro ha
    have hc : ((priceCoerced t).map optToVal).any notnaB = true := by
      rw [hany (priceCoerced t)]
      exact ha
    rw [hcols, if_pos hc, hnums, List.map_map]
    exact congrArg some (List.map_eq_map_iff.mpr (fun o _ => by cases o <;> rfl))
  · intro ha
    have hc : ¬ ((priceCoerced t).map optToVal).any notnaB = true := by
      rw [hany (priceCoerced t), ha]
      exact Bool.false_ne_true
    rw [hcols, if_neg hc, List.map_map]
    refine congrArg some (List.map_eq_map_iff.mpr (fun o ho => ?_))
    have hnone : o = none := by
      have := List.any_eq_false.mp ha o ho
      cases o with
      | none => rfl
      | some q => simp at this
    rw [hnone]
    rfl

theorem handle_missing_values_c2_witness :
    getColVals (handle_missing_values tMedian) "price" =
      some [Val.num 4, Val.num 7, Val.num 10] := by
  have h := (handle_missing_values_c2 tMedian (by decide)).1 (by decide)
  rw [h]
  decide

/-- C3: after `handleMissingValues` every missing quantity is 1 and the
whole quantity column holds truncated integers, with dtype `int64`. -/
theorem handle_missing_values_c3 (t : Table) (h : t.WF) :
    getColVals (handle_missing_values t) "quantity" =
      some ((qtyCoerced t).map (fun o => Val.num ((ratTrunc (o.getD 1) : ℤ) : ℚ)))
  ∧ (handle_missing_values t).dtypeOf "quantity" = DType.int := by
  refine ⟨?_, (handle_missing_values_cols t h).2.2⟩
  rw [(handle_missing_values_cols t h).2.1, List.map_map]
  refine congrArg some (List.map_eq_map_iff.mpr (fun o _ => ?_))
  cases o with
  | none => decide
  | some q => rfl

theorem handle_missing_values_c3_witness :
    getColVals (handle_missing_values tQty) "quantity" =
      some [Val.num 1, Val.num 2] ∧
    (handle_missing_values tQty).dtypeOf "quantity" = DType.int := by
  have h := handle_missing_values_c3 tQty (by decide)
  refine ⟨?_, h.2⟩
  rw [h.1]
  decide

theorem getD_map_zip {A B C : Type} (a : List A) (b : List B) (f : A × B → C)
    (j : Nat) (da : A) (db : B) (dc : C) (hja : j < a.length) (hjb : j < b.length) :
    ((a.zip b).map f).getD j dc = f (a.getD j da, b.getD j db) := by
  induction a generalizing b j with
  | nil => simp at hja
  | cons x a ih =>
    cases b with
    | nil => simp at hjb
    | cons y b =>
      cases j with
      | zero => rfl
      | succ j =>
        simpa [List.getD_cons_succ] using ih b j (by simpa using hja) (by simpa using hjb)

/-- C7: `normalizeColumns` rewrites every cell of every `object`-dtype
column to the stripped form of its stringification (stringify-then-strip),
and the missing cell stringifies to the literal text "nan". -/
theorem clean_column_names_c7 (t : Table) (h : t.WF) (j : Nat) (hj : j < t.headers.length)
    (hdt : t.dtypes.getD j DType.float = DType.obj) :
    (clean_column_names t).rows.map (fun r => r.getD j Val.na) =
      t.rows.map (fun r => Val.str (pyStrip (astypeStr (r.getD j Val.na))))
  ∧ pyStrip (astypeStr Val.na) = "nan" := by
  obtain ⟨hd, hi, halign⟩ := h
  refine ⟨?_, rfl⟩
  show (t.rows.map (fun r =>
      (t.dtypes.zip r).map (fun p =>
        if p.1 = DType.obj then Val.str (pyStrip (astypeStr p.2)) else p.2))).map
      (fun r => r.getD j Val.na) = _
  rw [List.map_map]
  refine List.map_eq_map_iff.mpr (fun r hr => ?_)
  show ((t.dtypes.zip r).map (fun p =>
      if p.1 = DType.obj then Val.str (pyStrip (astypeStr p.2)) else p.2)).getD j Val.na = _
  rw [getD_map_zip t.dtypes r _ j DType.float Val.na Val.na (by rw [hd]; exact hj)
    (by rw [halign r hr]; exact hj)]
  rw [if_pos hdt]

theorem clean_column_names_c7_witness :
    (clean_column_names tTrim).rows.map (fun r => r.getD 0 Val.na) =
      [Val.str "nan", Val.str "x"] := by
  have h := (clean_column_names_c7 tTrim (by decide) 0 (by decide) (by decide)).1
  rw [h]
  decide

/-- C9 counterexample: `handle_missing_values` mutates the caller's frame,
so on `tMut` the argument does not stay equal to its old value — the claim
that the table passed in is left unchanged fails. -/
theorem handle_missing_values_c9_counterexample :
    handleMissingValuesArgAfter tMut ≠ tMut := by
  decide

/-- C9 (amended): `clean_column_names` and `remove_invalid_rows` leave the
caller's frame unchanged; `handle_missing_values` updates its argument in
place so that afterwards it equals the returned table, and has no effect
beyond that object and its return value. -/
theorem pipeline_frame_c9 (t : Table) :
    cleanColumnNamesArgAfter t = t ∧ removeInvalidRowsArgAfter t = t ∧
      handleMissingValuesArgAfter t = handle_missing_values t :=
  ⟨rfl, rfl, rfl⟩

theorem map_snd_zip_sublist {A B : Type} (a : List A) (b : List B) :
    List.Sublist ((a.zip b).map Prod.snd) b := by
  induction a generalizing b with
  | nil => simp
  | cons x xs ih =>
    cases b with
    | nil => simp
    | cons y ys => simpa using List.Sublist.cons₂ y (ih ys)

theorem mem_filterRows (p : List Val → Bool) (t : Table) (r : List Val)
    (h : r ∈ (filterRows p t).rows) : p r = true ∧ r ∈ t.rows := by
  unfold filterRows at h
  rcases List.mem_map.mp h with ⟨ir, hir, rfl⟩
  have h2 := List.mem_filter.mp hir
  exact ⟨h2.2, (List.of_mem_zip h2.1).2⟩

theorem filterRows_rows_sublist (p : List Val → Bool) (t : Table) :
    List.Sublist (filterRows p t).rows t.rows := by
  unfold filterRows
  exact ((List.filter_sublist _).map Prod.snd).trans (map_snd_zip_sublist t.idx t.rows)

theorem gt0b_eq_true (v : Val) (h : gt0b v = true) : ∃ q : ℚ, v = Val.num q ∧ 0 < q := by
  cases v with
  | num q => exact ⟨q, rfl, by simpa [gt0b] using h⟩
  | str s => simp [gt0b] at h
  | na => simp [gt0b] at h

theorem dropBadNumeric_ok (t v : Table) (h : dropBadNumeric t = Except.ok v) :
    "price" ∈ t.headers ∧ "quantity" ∈ t.headers ∧ v = gtFiltered t := by
  unfold dropBadNumeric at h
  by_cases h1 : "price" ∈ t.headers
  · rw [if_pos h1] at h
    by_cases h2 : "quantity" ∈ t.headers
    · rw [if_pos h2] at h
      refine ⟨h1, h2, ?_⟩
      split at h
      · simp at h
      · split at h
        · simp at h
        · injection h with h
          exact h.symm
    · rw [if_neg h2] at h
      simp at h
  · rw [if_neg h1] at h
    simp at h

theorem resetIndex_rows (t : Table) : (resetIndex t).rows = t.rows :=
  rfl

theorem remove_invalid_rows_drop_ok (t v : Table) (h : dropBadNumeric t = Except.ok v) :
    remove_invalid_rows t =
      (if "product" ∈ v.headers then
        (if v.dtypeOf "product" ≠ DType.obj then Except.error PdErr.attrError
         else Except.ok (resetIndex (filterRows
           (fun r => productKeep (r.getD (v.posOf "product") Val.na)) v)))
       else Except.ok (resetIndex v)) := by
  unfold remove_invalid_rows
  rw [h]

theorem remove_invalid_rows_drop_error (t : Table) (e : PdErr)
    (h : dropBadNumeric t = Except.error e) :
    remove_invalid_rows t = Except.error e := by
  unfold remove_invalid_rows
  rw [h]

theorem remove_ok_cases (t u : Table) (h : remove_invalid_rows t = Except.ok u) :
    ∃ v, dropBadNumeric t = Except.ok v ∧ v = gtFiltered t ∧
      (("product" ∈ t.headers ∧ v.dtypeOf "product" = DType.obj ∧
          u = resetIndex (filterRows
            (fun r => productKeep (r.getD (v.posOf "product") Val.na)) v))
        ∨ ("product" ∉ t.headers ∧ u = resetIndex v)) := by
  cases hdrop : dropBadNumeric t with
  | error e =>
    rw [remove_invalid_rows_drop_error t e hdrop] at h
    simp at h
  | ok v =>
    rw [remove_invalid_rows_drop_ok t v hdrop] at h
    have hchar := dropBadNumeric_ok t v hdrop
    have hheads : v.headers = t.headers := by
      rw [hchar.2.2]
      rfl
    refine ⟨v, rfl, hchar.2.2, ?_⟩
    by_cases hp : "product" ∈ t.headers
    · rw [if_pos (hheads ▸ hp)] at h
      by_cases hdt : v.dtypeOf "product" = DType.obj
      · rw [if_neg (fun hne => hne hdt)] at h
        injection h with h
        exact Or.inl ⟨hp, hdt, h.symm⟩
      · rw [if_pos hdt] at h
        simp at h
    · rw [if_neg (fun hmm => hp (hheads ▸ hmm))] at h
      injection h with h
      exact Or.inr ⟨hp, h.symm⟩

/-- C1: every row surviving `filterInvalidRows` has a positive numeric
price and quantity, the output has at most as many rows as the input,
surviving rows keep their relative input order (they form a sublist of the
input rows), and the output index is renumbered contiguously from zero. -/
theorem remove_invalid_rows_c1 (t u : Table) (h : remove_invalid_rows t = Except.ok u) :
    (∀ r ∈ u.rows, ∃ p q : ℚ,
        r.getD (t.posOf "price") Val.na = Val.num p ∧ 0 < p ∧
        r.getD (t.posOf "quantity") Val.na = Val.num q ∧ 0 < q)
  ∧ u.rows.length ≤ t.rows.length
  ∧ List.Sublist u.rows t.rows
  ∧ u.idx = List.range u.rows.length := by
  rcases remove_ok_cases t u h with ⟨v, _, hv, hcases⟩
  have hvrows : ∀ r ∈ v.rows, ∃ p q : ℚ,
      r.getD (t.posOf "price") Val.na = Val.num p ∧ 0 < p ∧
      r.getD (t.posOf "quantity") Val.na = Val.num q ∧ 0 < q := by
    intro r hr
    rw [hv] at hr
    have hm := (mem_filterRows _ _ r hr).1
    have hm2 : gt0b (r.getD (t.posOf "price") Val.na) = true ∧
        gt0b (r.getD (t.posOf "quantity") Val.na) = true := by
      simpa using hm
    rcases gt0b_eq_true _ hm2.1 with ⟨p, hp1, hp2⟩
    rcases gt0b_eq_true _ hm2.2 with ⟨q, hq1, hq2⟩
    exact ⟨p, q, hp1, hp2, hq1, hq2⟩
  have hvsub : List.Sublist v.rows t.rows := by
    rw [hv]
    exact (filterRows_rows_sublist _ _).trans (filterRows_rows_sublist _ _)
  rcases hcases with ⟨_, _, rfl⟩ | ⟨_, rfl⟩
  · have hsub2 : List.Sublist
        (resetIndex (filterRows
          (fun r => productKeep (r.getD (v.posOf "product") Val.na)) v)).rows v.rows := by
      rw [resetIndex_rows]
      exact filterRows_rows_sublist _ v
    refine ⟨?_, (hsub2.trans hvsub).length_le, hsub2.trans hvsub, rfl⟩
    intro r hr
    rw [resetIndex_rows] at hr
    exact hvrows r (mem_filterRows _ _ r hr).2
  · exact ⟨hvrows, hvsub.length_le, hvsub, rfl⟩

theorem remove_invalid_rows_c1_witness :
    tNumOut.rows.length ≤ tNum.rows.length ∧
      tNumOut.idx = List.range tNumOut.rows.length := by
  have h := remove_invalid_rows_c1 tNum tNumOut (by rfl)
  exact ⟨h.2.1, h.2.2.2⟩

/-- C6: when a `product` column exists, every surviving row's product cell
is non-missing and nonempty after trimming (`productKeep`); when no
`product` column exists the product condition is skipped entirely — the
result is exactly the numeric filter's result, reindexed, so no row is
rejected on account of the absent column. -/
theorem remove_invalid_rows_c6 (t u : Table) (h : remove_invalid_rows t = Except.ok u) :
    ("product" ∈ t.headers →
      ∀ r ∈ u.rows, productKeep (r.getD (t.posOf "product") Val.na) = true)
  ∧ ("product" ∉ t.headers →
      remove_invalid_rows t = (dropBadNumeric t).map resetIndex) := by
  constructor
  · intro hprod
    rcases remove_ok_cases t u h with ⟨v, _, hv, hcases⟩
    rcases hcases with ⟨_, _, rfl⟩ | ⟨hnp, _⟩
    · intro r hr
      rw [resetIndex_rows] at hr
      have hk := (mem_filterRows _ _ r hr).1
      have hpos : v.posOf "product" = t.posOf "product" := by
        unfold Table.posOf
        rw [show v.headers = t.headers from by rw [hv]; rfl]
      rw [hpos] at hk
      exact hk
    · exact absurd hprod hnp
  · intro hnp
    cases hdrop : dropBadNumeric t with
    | error e =>
      rw [remove_invalid_rows_drop_error t e hdrop]
      rfl
    | ok v =>
      have hheads : v.headers = t.headers := by
        rw [(dropBadNumeric_ok t v hdrop).2.2]
        rfl
      rw [remove_invalid_rows_drop_ok t v hdrop,
        if_neg (fun hmm => hnp (hheads ▸ hmm))]
      rfl

theorem remove_invalid_rows_c6_witness :
    productKeep ([Val.str "ok", Val.num 5, Val.num 1].getD (tProd.posOf "product") Val.na) =
      true :=
  (remove_invalid_rows_c6 tProd tProdOut (by rfl)).1 (by decide)
    [Val.str "ok", Val.num 5, Val.num 1] (by decide)

/-- C10 counterexample: a table that contains both distinguished columns
but still makes `remove_invalid_rows` raise — its price cell is a string,
so the `> 0` comparison raises `TypeError`; the claim that every table
with both columns yields a table without raising is false. -/
theorem remove_invalid_rows_c10_counterexample :
    "price" ∈ tTypeErr.headers ∧ "quantity" ∈ tTypeErr.headers ∧
      remove_invalid_rows tTypeErr = Except.error PdErr.typeError :=
  ⟨by decide, by decide, by rfl⟩

/-- C10 (amended): for tables with both `price` and `quantity` columns
whose cells in those columns are numeric or missing (never strings) and
whose `product` column, when present, has `object` dtype,
`remove_invalid_rows` returns a table; for every table lacking either
column it fails with a lookup error. -/
theorem remove_invalid_rows_c10 (t : Table) :
    (("price" ∈ t.headers ∧ "quantity" ∈ t.headers ∧
        (∀ r ∈ t.rows, isStrB (r.getD (t.posOf "price") Val.na) = false ∧
          isStrB (r.getD (t.posOf "quantity") Val.na) = false) ∧
        ("product" ∈ t.headers → t.dtypeOf "product" = DType.obj)) →
      ∃ u, remove_invalid_rows t = Except.ok u)
  ∧ (("price" ∉ t.headers ∨ "quantity" ∉ t.headers) →
      remove_invalid_rows t = Except.error PdErr.keyError) := by
  constructor
  · rintro ⟨hp, hq, hstr, hprod⟩
    have e1 : ((notnaFiltered t).rows.map
        (fun r => r.getD (t.posOf "price") Val.na)).any isStrB = false := by
      apply List.any_eq_false.mpr
      intro v hv
      rcases List.mem_map.mp hv with ⟨r, hr, rfl⟩
      exact fun hcc =>
        Bool.false_ne_true ((hstr r (mem_filterRows _ _ r hr).2).1 ▸ hcc)
    have e2 : ((notnaFiltered t).rows.map
        (fun r => r.getD (t.posOf "quantity") Val.na)).any isStrB = false := by
      apply List.any_eq_false.mpr
      intro v hv
      rcases List.mem_map.mp hv with ⟨r, hr, rfl⟩
      exact fun hcc =>
        Bool.false_ne_true ((hstr r (mem_filterRows _ _ r hr).2).2 ▸ hcc)
    have hdrop : dropBadNumeric t = Except.ok (gtFiltered t) := by
      unfold dropBadNumeric
      rw [if_pos hp, if_pos hq]
      rw [if_neg (by rw [e1]; exact Bool.false_ne_true)]
      rw [if_neg (by rw [e2]; exact Bool.false_ne_true)]
    rw [remove_invalid_rows_drop_ok t (gtFiltered t) hdrop]
    by_cases hpr : "product" ∈ (gtFiltered t).headers
    · rw [if_pos hpr]
      have hobj : (gtFiltered t).dtypeOf "product" = DType.obj := hprod hpr
      rw [if_neg (fun hne => hne hobj)]
      exact ⟨_, rfl⟩
    · rw [if_neg hpr]
      exact ⟨_, rfl⟩
  · intro hk
    have hdrop : dropBadNumeric t = Except.error PdErr.keyError := by
      unfold dropBadNumeric
      rcases hk with hk | hk
      · rw [if_neg hk]
      · by_cases hp : "price" ∈ t.headers
        · rw [if_pos hp, if_neg hk]
        · rw [if_neg hp]
    exact remove_invalid_rows_drop_error t PdErr.keyError hdrop

theorem remove_invalid_rows_c10_witness :
    (∃ u, remove_invalid_rows tProd = Except.ok u) ∧
      remove_invalid_rows tNoPrice = Except.error PdErr.keyError :=
  ⟨(remove_invalid_rows_c10 tProd).1 (by decide),
   (remove_invalid_rows_c10 tNoPrice).2 (Or.inl (by decide))⟩

/-- C5: on the spec's three-row scenario the full pipeline returns exactly
the two valid rows — Good with price 10.0 and quantity 2, NoQty with price
12.0 and imputed quantity 1 — and drops BadPrice. -/
theorem pipeline_c5 : pipeline tScenario = Except.ok tScenarioOut := by
  rfl

end DataCleaning
